import Mathlib

/-!
A shallow embedding of the core of the `queued` message-queue service:
the push / poll / update / delete operations of the server endpoints
(`src/server/src/endpoint/push.rs`, `poll.rs`) and the libqueued
operation layer (`src/libqueued/src/op/update.rs`, `delete.rs`),
together with the byte-level slot manipulation used by poll.

Machine integers are embedded as `Nat` (or `Int` for signed values),
with an explicit `% 2 ^ w` wherever the Rust code performs fixed-width
arithmetic.  Byte strings are `List Nat`, each byte taken mod 256 at the
point where its value matters.  Fallible Rust code (`unwrap` on
`String::from_utf8`) is embedded in `Option`.  Wall-clock time is a
parameter `now : Int` (seconds since epoch).  The random poll tag and
the BLAKE3 hash function are oracles passed as parameters.
-/

namespace Queued

/-! ## Byte-level utilities (src/server/src/util.rs helpers and integer codecs) -/

/-- Read `len` bytes at byte offset `off` (Rust `u64_slice` / `read_at`). -/
def readAt (l : List Nat) (off len : Nat) : List Nat := (l.drop off).take len

/-- Overwrite the bytes at byte offset `off` with `v` (Rust `u64_slice_write`). -/
def writeAt (l : List Nat) (off : Nat) (v : List Nat) : List Nat :=
  l.take off ++ v ++ l.drop (off + v.length)

/-- Big-endian bytes, width `k`, of `n` (Rust `to_be_bytes`); the value is
taken mod `256 ^ k`, most significant byte first. -/
def beBytes : Nat → Nat → List Nat
  | 0, _ => []
  | k + 1, n => beBytes k (n / 256) ++ [n % 256]

/-- The unsigned value of a big-endian byte list (Rust `from_be_bytes`),
each byte taken mod 256. -/
def beVal (l : List Nat) : Nat := l.foldl (fun a b => a * 256 + b % 256) 0

/-- Little-endian bytes, width `k` (the `off64` integer encoders). -/
def leBytes : Nat → Nat → List Nat
  | 0, _ => []
  | k + 1, n => n % 256 :: leBytes k (n / 256)

/-- `off64::int::create_u32_le`: 4 little-endian bytes of a u32 value. -/
def u32le (n : Nat) : List Nat := leBytes 4 (n % 2 ^ 32)

/-- `off64::int::create_i40_le`: 5 little-endian bytes, twos-complement. -/
def i40le (v : Int) : List Nat := leBytes 5 (v.emod (2 ^ 40)).toNat

/-- `i64::to_be_bytes`: 8 big-endian bytes, twos-complement. -/
def i64be (v : Int) : List Nat := beBytes 8 (v.emod (2 ^ 64)).toNat

/-- `i64::from_be_bytes`: signed value of 8 big-endian bytes. -/
def i64ofBe (l : List Nat) : Int :=
  let n := beVal l
  if n < 2 ^ 63 then (n : Int) else (n : Int) - 2 ^ 64

/-- One lowercase hexadecimal digit (the alphabet of the `hex` crate). -/
def hexDigit (n : Nat) : Char :=
  if n < 10 then Char.ofNat (48 + n) else Char.ofNat (87 + n)

/-- `hex::encode`: two lowercase hex digits per byte, high nibble first. -/
def hexEncode (bs : List Nat) : String :=
  String.mk (bs.flatMap (fun b => [hexDigit (b % 256 / 16), hexDigit (b % 256 % 16)]))

/-- The sixteen characters that `hex::encode` can emit: the hex digits of
the nibble values 0 through 15. -/
def hexAlphabet : List Char := (List.range 16).map hexDigit

/-! ## UTF-8 (the bytes a Rust `String` stores, and `String::from_utf8`) -/

/-- The UTF-8 encoding of one Unicode scalar value, as stored by a Rust
`String`: 1 to 4 bytes depending on the codepoint range. -/
def utf8EncodeChar (c : Char) : List Nat :=
  let cp := c.toNat
  if cp < 0x80 then [cp]
  else if cp < 0x800 then [0xC0 + cp / 64, 0x80 + cp % 64]
  else if cp < 0x10000 then [0xE0 + cp / 4096, 0x80 + cp / 64 % 64, 0x80 + cp % 64]
  else [0xF0 + cp / 262144, 0x80 + cp / 4096 % 64, 0x80 + cp / 64 % 64, 0x80 + cp % 64]

/-- The UTF-8 byte string of a Rust `String`; `contents.len()` in the Rust
source is the length of this list. -/
def utf8Encode (s : String) : List Nat := s.data.flatMap utf8EncodeChar

/-- Continuation of a 2-byte UTF-8 sequence led by `b0`. -/
def utf8Cont2 (b0 : Nat) : List Nat → Option (Nat × List Nat)
  | b1 :: bs1 =>
    if 0x80 ≤ b1 ∧ b1 < 0xC0 then
      let cp := (b0 - 0xC0) * 64 + (b1 - 0x80)
      if 0x80 ≤ cp then some (cp, bs1) else none
    else none
  | [] => none

/-- Continuation of a 3-byte UTF-8 sequence led by `b0`. -/
def utf8Cont3 (b0 : Nat) : List Nat → Option (Nat × List Nat)
  | b1 :: b2 :: bs2 =>
    if (0x80 ≤ b1 ∧ b1 < 0xC0) ∧ (0x80 ≤ b2 ∧ b2 < 0xC0) then
      let cp := (b0 - 0xE0) * 4096 + (b1 - 0x80) * 64 + (b2 - 0x80)
      if 0x800 ≤ cp ∧ ¬(0xD800 ≤ cp ∧ cp < 0xE000) then some (cp, bs2) else none
    else none
  | _ => none

/-- Continuation of a 4-byte UTF-8 sequence led by `b0`. -/
def utf8Cont4 (b0 : Nat) : List Nat → Option (Nat × List Nat)
  | b1 :: b2 :: b3 :: bs3 =>
    if (0x80 ≤ b1 ∧ b1 < 0xC0) ∧ (0x80 ≤ b2 ∧ b2 < 0xC0) ∧ (0x80 ≤ b3 ∧ b3 < 0xC0) then
      let cp := (b0 - 0xF0) * 262144 + (b1 - 0x80) * 4096 + (b2 - 0x80) * 64 + (b3 - 0x80)
      if 0x10000 ≤ cp ∧ cp < 0x110000 then some (cp, bs3) else none
    else none
  | _ => none

/-- Decode one UTF-8 scalar value at the head of the byte list, returning
the codepoint and the remaining bytes, or `none` where the Rust UTF-8
validation rejects: a stray or missing continuation byte, a truncated
sequence, an overlong form, a surrogate codepoint, or a codepoint beyond
U+10FFFF. -/
def utf8DecodeChar1 : List Nat → Option (Nat × List Nat)
  | [] => none
  | b0 :: bs =>
    if b0 < 0x80 then some (b0, bs)
    else if b0 < 0xC0 then none
    else if b0 < 0xE0 then utf8Cont2 b0 bs
    else if b0 < 0xF0 then utf8Cont3 b0 bs
    else if b0 < 0xF8 then utf8Cont4 b0 bs
    else none

/-- The decode loop, with fuel: each step consumes at least one byte, so
fuel equal to the byte count never runs out (`utf8DecodeAux_fuel`). -/
def utf8DecodeAux : Nat → List Nat → Option (List Char)
  | _, [] => some []
  | 0, _ :: _ => none
  | fuel + 1, b0 :: bs =>
    match utf8DecodeChar1 (b0 :: bs) with
    | none => none
    | some (cp, rest) => (utf8DecodeAux fuel rest).map (fun cs => Char.ofNat cp :: cs)

/-- `String::from_utf8`: decode a byte list as UTF-8, `none` exactly where
Rust returns `Err`. -/
def utf8Decode (l : List Nat) : Option (List Char) := utf8DecodeAux l.length l

/-! ## Visibility index and available set

The index implementations (the libqueued message list and the server
available set) are not among the given sources; only their callers are.
They are modelled from the spec (§4.5). -/

/-- Modelled from the spec: `remove_if_poll_tag_matches(id, expected)` of the
visibility index (§4.5); the index implementation itself is not among the
given sources.  Entries are `(id, visible_ts, poll_tag)` triples; the call
removes the entry for `id` and reports `true` only when `id` is present and
its stored poll tag equals the expected one; otherwise it reports `false`
and leaves the index unchanged. -/
def removeIfPollTagMatches : List (Nat × Int × Nat) → Nat → Nat → Bool × List (Nat × Int × Nat)
  | [], _, _ => (false, [])
  | e :: rest, id, tag =>
    if e.1 = id then
      if e.2.2 = tag then (true, rest) else (false, e :: rest)
    else
      let r := removeIfPollTagMatches rest id tag
      (r.1, e :: r.2)

/-- The poll tag currently stored for `id` in the visibility index (first
entry wins, matching the behaviour of `removeIfPollTagMatches`). -/
def lookupTag : List (Nat × Int × Nat) → Nat → Option Nat
  | [], _ => none
  | e :: rest, id => if e.1 = id then some e.2.2 else lookupTag rest id

/-- Modelled from the spec: `insert(id, visible_ts, poll_tag)` of the
visibility index (§4.5), for an id not currently present. -/
def visInsert (l : List (Nat × Int × Nat)) (id : Nat) (ts : Int) (tag : Nat) :
    List (Nat × Int × Nat) :=
  (id, ts, tag) :: l

/-- Modelled from the spec: the candidate returned by
`remove_earliest_up_to(now)` (§4.5) on the server available set of
`(slot index, visible_ts)` pairs: the entry with smallest
`(visible_ts, id)` among those with `visible_ts ≤ now`. -/
def earliestUpTo (now : Int) : List (Nat × Int) → Option (Nat × Int)
  | [] => none
  | e :: rest =>
    let r := earliestUpTo now rest
    if e.2 ≤ now then
      match r with
      | none => some e
      | some b => if e.2 < b.2 ∨ (e.2 = b.2 ∧ e.1 ≤ b.1) then some e else some b
    else r

/-- Remove the first occurrence of an entry from the available set. -/
def removeEntry : List (Nat × Int) → Nat × Int → List (Nat × Int)
  | [], _ => []
  | e :: rest, x => if e = x then rest else e :: removeEntry rest x

/-- Modelled from the spec: `remove_earliest_up_to(now)` (§4.5): atomically
return and remove the earliest eligible entry, or return `none`. -/
def removeEarliestUpTo (avail : List (Nat × Int)) (now : Int) :
    Option Nat × List (Nat × Int) :=
  match earliestUpTo now avail with
  | none => (none, avail)
  | some e => (some e.1, removeEntry avail e)

/-! ## Shared data types: metrics, errors, metadata keys, event traces -/

/-- The atomic counters of `Metrics` touched by the four operations. -/
structure Metrics where
  successful_push_counter : Nat := 0
  suspended_push_counter : Nat := 0
  successful_poll_counter : Nat := 0
  suspended_poll_counter : Nat := 0
  empty_poll_counter : Nat := 0
  successful_update_counter : Nat := 0
  suspended_update_counter : Nat := 0
  missing_update_counter : Nat := 0
  successful_delete_counter : Nat := 0
  suspended_delete_counter : Nat := 0
  missing_delete_counter : Nat := 0
  deriving DecidableEq

/-- `OpError` of the libqueued operation layer (`op/result.rs`, per §7). -/
inductive OpError where
  | Suspended
  | MessageNotFound
  | ContentsTooLarge
  | InvalidVisibilityTimeout
  deriving DecidableEq

/-- The keyed metadata keys (`rocksdb_key` with the three key kinds). -/
inductive DbKey where
  | MessageData (id : Nat)
  | MessagePollTag (id : Nat)
  | MessageVisibleTimestampSec (id : Nat)
  deriving DecidableEq

/-- Observable storage / synchronisation effects of update and delete, in
program order: staged batch mutations, the single batch commit, and the
`submit_and_wait` durability barrier. -/
inductive DbEvent where
  | batchInsert (k : DbKey) (v : List Nat)
  | batchRemove (k : DbKey)
  | batchCommit
  | submitAndWait (tag : Nat)
  deriving DecidableEq

/-! ## libqueued operation layer: op_update and op_delete -/

/-- The parts of the libqueued `Ctx` that update and delete read or write. -/
structure QueueCtx where
  updateSuspended : Bool := false
  deleteSuspended : Bool := false
  messages : List (Nat × Int × Nat) := []
  metrics : Metrics := {}
  deriving DecidableEq

/-- `OpUpdateInput`. -/
structure UpdateInput where
  id : Nat
  poll_tag : Nat
  visibility_timeout_secs : Int
  deriving DecidableEq

/-- `OpUpdateOutput`. -/
structure UpdateOutput where
  new_poll_tag : Nat
  deriving DecidableEq

/-- `op_update` (src/libqueued/src/op/update.rs): suspension check, poll-tag
guarded removal from the visibility index, then the two metadata inserts in
one batch, the barrier, the reinsertion under the new tag and timestamp, and
the success counter.  `poll_tag` is a u32, so the increment wraps mod 2^32. -/
def op_update (ctx : QueueCtx) (now : Int) (req : UpdateInput) :
    Except OpError UpdateOutput × QueueCtx × List DbEvent :=
  if ctx.updateSuspended then
    (.error .Suspended,
     { ctx with metrics :=
        { ctx.metrics with
            suspended_update_counter := ctx.metrics.suspended_update_counter + 1 } },
     [])
  else
    let r := removeIfPollTagMatches ctx.messages req.id req.poll_tag
    if r.1 then
      let newVisibleTime : Int := now + req.visibility_timeout_secs
      let newPollTag : Nat := (req.poll_tag + 1) % 2 ^ 32
      (.ok ⟨newPollTag⟩,
       { ctx with
           messages := visInsert r.2 req.id newVisibleTime newPollTag,
           metrics :=
             { ctx.metrics with
                 successful_update_counter := ctx.metrics.successful_update_counter + 1 } },
       [.batchInsert (.MessagePollTag req.id) (u32le newPollTag),
        .batchInsert (.MessageVisibleTimestampSec req.id) (i40le newVisibleTime),
        .batchCommit, .submitAndWait 0])
    else
      (.error .MessageNotFound,
       { ctx with metrics :=
          { ctx.metrics with
              missing_update_counter := ctx.metrics.missing_update_counter + 1 } },
       [])

/-- `OpDeleteInputMessage`. -/
structure DeleteInputMessage where
  id : Nat
  poll_tag : Nat
  deriving DecidableEq

/-- `OpDeleteOutput` (an empty object). -/
structure DeleteOutput where
  deriving DecidableEq

/-- The loop body of `op_delete`: thread the visibility index and the
counters over the input pairs, staging three key removals per matched
entry and skipping (with the missing counter) each unmatched one. -/
def deleteLoop (metrics : Metrics) (msgs : List (Nat × Int × Nat)) :
    List DeleteInputMessage → Metrics × List (Nat × Int × Nat) × List DbEvent
  | [] => (metrics, msgs, [])
  | m :: rest =>
    let r := removeIfPollTagMatches msgs m.id m.poll_tag
    if r.1 then
      let out := deleteLoop
        { metrics with successful_delete_counter := metrics.successful_delete_counter + 1 }
        r.2 rest
      (out.1, out.2.1,
       .batchRemove (.MessageData m.id) :: .batchRemove (.MessagePollTag m.id) ::
         .batchRemove (.MessageVisibleTimestampSec m.id) :: out.2.2)
    else
      deleteLoop
        { metrics with missing_delete_counter := metrics.missing_delete_counter + 1 }
        msgs rest

/-- `op_delete` (src/libqueued/src/op/delete.rs): suspension check, the
shared batch built over all input pairs, one commit, one barrier, empty
output. -/
def op_delete (ctx : QueueCtx) (req : List DeleteInputMessage) :
    Except OpError DeleteOutput × QueueCtx × List DbEvent :=
  if ctx.deleteSuspended then
    (.error .Suspended,
     { ctx with metrics :=
        { ctx.metrics with
            suspended_delete_counter := ctx.metrics.suspended_delete_counter + 1 } },
     [])
  else
    let r := deleteLoop ctx.metrics ctx.messages req
    (.ok ⟨⟩,
     { ctx with metrics := r.1, messages := r.2.1 },
     r.2.2 ++ [.batchCommit, .submitAndWait 0])

/-! ## Server endpoints: push and poll (slot layout) -/

/-- The HTTP error pair returned by a suspended endpoint. -/
structure HttpError where
  status : Nat
  text : String
  deriving DecidableEq

/-- The 503 response both suspended endpoints return. -/
def suspendedHttpError : HttpError := ⟨503, "this endpoint has been suspended"⟩

/-- `EndpointPushInputMessage`. -/
structure PushInputMessage where
  contents : String
  visibility_timeout_secs : Int
  deriving DecidableEq

/-- `EndpointPushOutputErrorType`. -/
inductive PushErrorType where
  | ContentsTooLarge
  | InvalidVisibilityTimeout
  deriving DecidableEq

/-- `EndpointPushOutputError`: the error kind and the input index it is
reported against. -/
structure PushError where
  typ : PushErrorType
  index : Nat
  deriving DecidableEq

/-- `EndpointPushOutput`. -/
structure PushOutput where
  errors : List PushError
  deriving DecidableEq

/-- `MessageCreation`: what push hands to `layout.create_messages` for one
accepted element. -/
structure MessageCreation where
  id : Nat
  contents : String
  visibleTime : Int
  deriving DecidableEq

/-- Slot-layout byte offsets (§6; `const_.rs` is not among the given
sources, the values are modelled from the layout table of the spec):
32-byte hash, 1-byte hash-scope flag, 1-byte slot state, 30-byte poll
tag, 8-byte created_ts, 8-byte visible_ts, 4-byte poll_count, 2-byte
content length, then the contents. -/
def SLOT_OFFSETOF_HASH : Nat := 0

/-- Offset of the `hash_includes_contents` flag byte. -/
def SLOT_OFFSETOF_HASH_INCLUDES_CONTENTS : Nat := 32

/-- Offset of the slot-state byte (0 = Vacant, 1 = Available). -/
def SLOT_OFFSETOF_STATE : Nat := 33

/-- Offset of the 30-byte poll tag. -/
def SLOT_OFFSETOF_POLL_TAG : Nat := 34

/-- Offset of the 8-byte big-endian created timestamp (seconds). -/
def SLOT_OFFSETOF_CREATED_TS : Nat := 64

/-- Offset of the 8-byte big-endian visible timestamp (seconds). -/
def SLOT_OFFSETOF_VISIBLE_TS : Nat := 72

/-- Offset of the 4-byte big-endian poll count. -/
def SLOT_OFFSETOF_POLL_COUNT : Nat := 80

/-- Offset of the 2-byte big-endian content length. -/
def SLOT_OFFSETOF_LEN : Nat := 84

/-- Offset of the contents; also the length of the fixed-size field region. -/
def SLOT_OFFSETOF_CONTENTS : Nat := 86

/-- Length of the fixed (non-contents) portion of a slot. -/
def SLOT_FIXED_FIELDS_LEN : Nat := 86

/-- The parts of the server `Ctx` that push and poll read or write.  The
device is a map from slot index to the current bytes of that slot; slot writes
are reported as events rather than folded into the state. -/
structure ServerCtx where
  suspendPush : Bool := false
  suspendPoll : Bool := false
  maxContentsLen : Nat := 1024
  idNext : Nat := 0
  invisible : List (Nat × Int) := []
  available : List (Nat × Int) := []
  device : Nat → List Nat := fun _ => []
  metrics : Metrics := {}

/-- The validation-and-build loop of `endpoint_push`, starting at input
index `i`: returns the per-element errors, the `(id, visible_time)` pairs
destined for the invisible set, and the `MessageCreation` list, all in
input order.  Note the loop indexes ids by the input position `i`, not by
the position among accepted elements. -/
def pushLoop (maxLen : Nat) (now : Int) (baseId : Nat) :
    Nat → List PushInputMessage → List PushError × List (Nat × Int) × List MessageCreation
  | _, [] => ([], [], [])
  | i, msg :: rest =>
    let r := pushLoop maxLen now baseId (i + 1) rest
    if maxLen < (utf8Encode msg.contents).length then
      (⟨.ContentsTooLarge, i⟩ :: r.1, r.2.1, r.2.2)
    else if msg.visibility_timeout_secs < 0 then
      (⟨.InvalidVisibilityTimeout, i⟩ :: r.1, r.2.1, r.2.2)
    else
      let id := baseId + i
      let visibleTime := now + msg.visibility_timeout_secs
      (r.1, (id, visibleTime) :: r.2.1, ⟨id, msg.contents, visibleTime⟩ :: r.2.2)

/-- `endpoint_push` (src/server/src/endpoint/push.rs): suspension check,
`base_id = id_gen.generate(n)` with `n` the length of the whole input
list, the per-element validation loop, `create_messages`, the id commit,
the invisible-set inserts, and the push counter.  Returns the HTTP
result, the new context, and the list of persisted message creations. -/
def endpoint_push (ctx : ServerCtx) (now : Int) (req : List PushInputMessage) :
    Except HttpError PushOutput × ServerCtx × List MessageCreation :=
  if ctx.suspendPush then
    (.error suspendedHttpError,
     { ctx with metrics :=
        { ctx.metrics with
            suspended_push_counter := ctx.metrics.suspended_push_counter + 1 } },
     [])
  else
    let n := req.length
    let baseId := ctx.idNext
    let r := pushLoop ctx.maxContentsLen now baseId 0 req
    (.ok ⟨r.1⟩,
     { ctx with
         idNext := ctx.idNext + n,
         invisible := r.2.1.foldl (fun inv e => e :: inv) ctx.invisible,
         metrics :=
           { ctx.metrics with
               successful_push_counter := ctx.metrics.successful_push_counter + 1 } },
     r.2.2)

/-- `EndpointPollOutputMessage`.  The Rust struct declares `index: u32` and
`poll_count: u32`; those fields are embedded with their 32-bit ranges. -/
structure PollOutputMessage where
  contents : String
  created : Int
  index : Fin (2 ^ 32)
  poll_count : Fin (2 ^ 32)
  poll_tag : String
  deriving DecidableEq

/-- `EndpointPollOutput`. -/
structure PollOutput where
  message : Option PollOutputMessage
  deriving DecidableEq

/-- The slot rewrite a successful poll performs (poll.rs lines 108-127):
truncate to the fixed fields, clear the hash-scope flag, keep the state
Available, write the fresh poll tag, the new visible timestamp and the
bumped poll count, then recompute the BLAKE3 hash over bytes `[32..)` of
the truncated slot and store it at offset 0. -/
def pollRewriteSlot (blake3 : List Nat → List Nat) (slotData randTag : List Nat)
    (visibleTime : Int) (newPollCount : Nat) : List Nat :=
  let s0 := slotData.take SLOT_FIXED_FIELDS_LEN
  let s1 := writeAt s0 SLOT_OFFSETOF_HASH_INCLUDES_CONTENTS [0]
  let s2 := writeAt s1 SLOT_OFFSETOF_STATE [1]
  let s3 := writeAt s2 SLOT_OFFSETOF_POLL_TAG randTag
  let s4 := writeAt s3 SLOT_OFFSETOF_VISIBLE_TS (i64be visibleTime)
  let s5 := writeAt s4 SLOT_OFFSETOF_POLL_COUNT (beBytes 4 newPollCount)
  writeAt s5 SLOT_OFFSETOF_HASH (blake3 (s5.drop 32))

/-- `endpoint_poll` (src/server/src/endpoint/poll.rs): suspension check,
pop of the earliest available slot index, slot read, field decode, slot
rewrite with delayed sync, reinsertion into the available set, counters,
and the JSON response.  `blake3` and the 30 random tag bytes are oracle
parameters; the outer `Option` is `none` exactly when
`String::from_utf8(..).unwrap()` would panic.  The returned list holds
the `(slot index, bytes)` writes issued via `write_at_with_delayed_sync`. -/
def endpoint_poll (blake3 : List Nat → List Nat) (ctx : ServerCtx) (now : Int)
    (visibilityTimeoutSecs : Int) (randTag : List Nat) :
    Option (Except HttpError PollOutput × ServerCtx × List (Nat × List Nat)) :=
  if ctx.suspendPoll then
    some (.error suspendedHttpError,
      { ctx with metrics :=
          { ctx.metrics with
              suspended_poll_counter := ctx.metrics.suspended_poll_counter + 1 } },
      [])
  else
    let visibleTime : Int := now + visibilityTimeoutSecs
    match removeEarliestUpTo ctx.available now with
    | (none, _) =>
      some (.ok ⟨none⟩,
        { ctx with metrics :=
            { ctx.metrics with empty_poll_counter := ctx.metrics.empty_poll_counter + 1 } },
        [])
    | (some index, availRest) =>
      let slotData := ctx.device index
      let created := i64ofBe (readAt slotData SLOT_OFFSETOF_CREATED_TS 8)
      let newPollCount := (beVal (readAt slotData SLOT_OFFSETOF_POLL_COUNT 4) + 1) % 2 ^ 32
      let len := beVal (readAt slotData SLOT_OFFSETOF_LEN 2)
      match utf8Decode (readAt slotData SLOT_OFFSETOF_CONTENTS len) with
      | none => none
      | some contentChars =>
        let written := pollRewriteSlot blake3 slotData randTag visibleTime newPollCount
        some (.ok ⟨some
            { contents := String.mk contentChars,
              created := created,
              index := ⟨index % 2 ^ 32, Nat.mod_lt _ (by norm_num)⟩,
              poll_count := ⟨newPollCount, Nat.mod_lt _ (by norm_num)⟩,
              poll_tag := hexEncode randTag }⟩,
          { ctx with
              available := (index, visibleTime) :: availRest,
              metrics :=
                { ctx.metrics with
                    successful_poll_counter := ctx.metrics.successful_poll_counter + 1 } },
          [(index, written)])

/-! ## Lemmas about the visibility index model -/

theorem removeIfPollTagMatches_missing (l : List (Nat × Int × Nat)) (id tag : Nat)
    (h : lookupTag l id = none) : removeIfPollTagMatches l id tag = (false, l) := by
  induction l with
  | nil => rfl
  | cons e rest ih =>
    simp only [lookupTag] at h
    by_cases he : e.1 = id
    · simp [he] at h
    · rw [if_neg he] at h
      simp only [removeIfPollTagMatches, if_neg he, ih h]

theorem removeIfPollTagMatches_mismatch (l : List (Nat × Int × Nat)) (id tag tag' : Nat)
    (h : lookupTag l id = some tag) (hne : tag' ≠ tag) :
    removeIfPollTagMatches l id tag' = (false, l) := by
  induction l with
  | nil => simp [lookupTag] at h
  | cons e rest ih =>
    simp only [lookupTag] at h
    by_cases he : e.1 = id
    · rw [if_pos he] at h
      have h22 : e.2.2 = tag := by simpa using h
      simp only [removeIfPollTagMatches, if_pos he, h22]
      rw [if_neg (show ¬tag = tag' from fun hh => hne hh.symm)]
    · rw [if_neg he] at h
      simp only [removeIfPollTagMatches, if_neg he, ih h]

theorem removeIfPollTagMatches_match (l : List (Nat × Int × Nat)) (id tag : Nat)
    (h : lookupTag l id = some tag) :
    (removeIfPollTagMatches l id tag).1 = true := by
  induction l with
  | nil => simp [lookupTag] at h
  | cons e rest ih =>
    simp only [lookupTag] at h
    by_cases he : e.1 = id
    · rw [if_pos he] at h
      have : e.2.2 = tag := by simpa using h
      simp [removeIfPollTagMatches, he, this]
    · rw [if_neg he] at h
      simp [removeIfPollTagMatches, he, ih h]

/-! ## Lemmas about the byte-level utilities -/

theorem beBytes_length (k n : Nat) : (beBytes k n).length = k := by
  induction k generalizing n with
  | zero => rfl
  | succ k ih => simp [beBytes, ih]

theorem leBytes_length (k n : Nat) : (leBytes k n).length = k := by
  induction k generalizing n with
  | zero => rfl
  | succ k ih => simp [leBytes, ih]

theorem i64be_length (v : Int) : (i64be v).length = 8 := beBytes_length 8 _

theorem writeAt_length {l v : List Nat} {off : Nat} (h : off + v.length ≤ l.length) :
    (writeAt l off v).length = l.length := by
  simp only [writeAt, List.length_append, List.length_take, List.length_drop]
  omega

theorem readAt_writeAt_self {l v : List Nat} {off : Nat} (h : off + v.length ≤ l.length) :
    readAt (writeAt l off v) off v.length = v := by
  have h1 : (l.take off).length = off := by
    simp only [List.length_take]; omega
  simp only [readAt, writeAt, List.append_assoc, List.drop_append_eq_append_drop, h1,
    Nat.sub_self, List.drop_zero]
  rw [List.drop_eq_nil_of_le (by omega), List.nil_append,
    List.take_append_eq_append_take, List.take_length, Nat.sub_self, List.take_zero,
    List.append_nil]

theorem readAt_take {l : List Nat} {m o n : Nat} (h : o + n ≤ m) :
    readAt (l.take m) o n = readAt l o n := by
  simp only [readAt]
  rw [List.drop_take, List.take_take]
  congr 1
  omega

theorem readAt_writeAt_before {l v : List Nat} {off o n : Nat}
    (h1 : o + n ≤ off) (h2 : off ≤ l.length) :
    readAt (writeAt l off v) o n = readAt l o n := by
  have hA : (l.take off).length = off := by
    simp only [List.length_take]; omega
  have hkey : (writeAt l off v).take off = l.take off := by
    simp only [writeAt, List.append_assoc]
    rw [List.take_append_eq_append_take, hA, Nat.sub_self, List.take_zero,
      List.append_nil, List.take_take]
    congr 1
    omega
  rw [← readAt_take h1, hkey, readAt_take h1]

theorem readAt_writeAt_after {l v : List Nat} {off o n : Nat}
    (h1 : off + v.length ≤ o) (h2 : off + v.length ≤ l.length) :
    readAt (writeAt l off v) o n = readAt l o n := by
  have hlt : (l.take off ++ v).length = off + v.length := by
    simp only [List.length_append, List.length_take]; omega
  have hnil : (l.take off ++ v).drop o = [] :=
    List.drop_eq_nil_of_le (by omega)
  simp only [readAt, writeAt, ← List.append_assoc, List.drop_append_eq_append_drop, hlt,
    hnil, List.nil_append, List.drop_drop]
  congr 2
  omega

/-! ## UTF-8 roundtrip: decoding always succeeds on encoder output -/

theorem utf8DecodeChar1_encodeChar (c : Char) (bs : List Nat) :
    utf8DecodeChar1 (utf8EncodeChar c ++ bs) = some (c.toNat, bs) := by
  have hv : Nat.isValidChar c.toNat := c.valid
  have hub : c.toNat < 0x110000 := by
    rcases hv with h | ⟨_, h⟩
    · omega
    · exact h
  have hsur : ¬(0xD800 ≤ c.toNat ∧ c.toNat < 0xE000) := by
    rcases hv with h | ⟨hh1, hh2⟩ <;> omega
  by_cases h1 : c.toNat < 0x80
  · simp only [utf8EncodeChar, if_pos h1, List.cons_append, List.nil_append,
      utf8DecodeChar1, if_pos h1]
  · by_cases h2 : c.toNat < 0x800
    · have hcp : (0xC0 + c.toNat / 64 - 0xC0) * 64 + (0x80 + c.toNat % 64 - 0x80) =
          c.toNat := by omega
      simp only [utf8EncodeChar, if_neg h1, if_pos h2, List.cons_append, List.nil_append,
        utf8DecodeChar1]
      rw [if_neg (by omega), if_neg (by omega), if_pos (by omega)]
      simp only [utf8Cont2]
      rw [if_pos (by omega), hcp, if_pos (by omega)]
    · by_cases h3 : c.toNat < 0x10000
      · have hcp : (0xE0 + c.toNat / 4096 - 0xE0) * 4096 +
            (0x80 + c.toNat / 64 % 64 - 0x80) * 64 + (0x80 + c.toNat % 64 - 0x80) =
            c.toNat := by omega
        simp only [utf8EncodeChar, if_neg h1, if_neg h2, if_pos h3, List.cons_append,
          List.nil_append, utf8DecodeChar1]
        rw [if_neg (by omega), if_neg (by omega), if_neg (by omega), if_pos (by omega)]
        simp only [utf8Cont3]
        rw [if_pos (by omega), hcp, if_pos (by exact ⟨by omega, hsur⟩)]
      · have hcp : (0xF0 + c.toNat / 262144 - 0xF0) * 262144 +
            (0x80 + c.toNat / 4096 % 64 - 0x80) * 4096 +
            (0x80 + c.toNat / 64 % 64 - 0x80) * 64 + (0x80 + c.toNat % 64 - 0x80) =
            c.toNat := by omega
        simp only [utf8EncodeChar, if_neg h1, if_neg h2, if_neg h3, List.cons_append,
          List.nil_append, utf8DecodeChar1]
        rw [if_neg (by omega), if_neg (by omega), if_neg (by omega), if_neg (by omega),
          if_pos (by omega)]
        simp only [utf8Cont4]
        rw [if_pos (by omega), hcp, if_pos (by exact ⟨by omega, hub⟩)]

theorem utf8EncodeChar_ne_nil (c : Char) : utf8EncodeChar c ≠ [] := by
  simp only [utf8EncodeChar]
  split_ifs <;> simp

theorem utf8DecodeAux_flatMap (cs : List Char) :
    ∀ fuel, cs.length ≤ fuel →
      utf8DecodeAux fuel (cs.flatMap utf8EncodeChar) = some cs := by
  induction cs with
  | nil => intro fuel _; cases fuel <;> rfl
  | cons c rest ih =>
    intro fuel hfuel
    rw [List.flatMap_cons]
    obtain ⟨f, rfl⟩ : ∃ f, fuel = f + 1 := by
      cases fuel
      · simp at hfuel
      · exact ⟨_, rfl⟩
    obtain ⟨b0, bs0, hb⟩ : ∃ b0 bs0, utf8EncodeChar c = b0 :: bs0 := by
      cases hc : utf8EncodeChar c with
      | nil => exact absurd hc (utf8EncodeChar_ne_nil c)
      | cons x xs => exact ⟨x, xs, rfl⟩
    have hstep : utf8DecodeChar1 (b0 :: (bs0 ++ rest.flatMap utf8EncodeChar)) =
        some (c.toNat, rest.flatMap utf8EncodeChar) := by
      have := utf8DecodeChar1_encodeChar c (rest.flatMap utf8EncodeChar)
      rwa [hb, List.cons_append] at this
    rw [hb, List.cons_append, utf8DecodeAux, hstep]
    simp only []
    rw [ih f (by simpa using hfuel), Char.ofNat_toNat]
    rfl

/-- Decoding the UTF-8 bytes of any Rust `String` succeeds and returns its
characters; `String::from_utf8(..).unwrap()` cannot panic on them. -/
theorem utf8Decode_utf8Encode (s : String) : utf8Decode (utf8Encode s) = some s.data := by
  have hlen : s.data.length ≤ (s.data.flatMap utf8EncodeChar).length := by
    induction s.data with
    | nil => simp
    | cons c rest ih =>
      rw [List.flatMap_cons, List.length_append, List.length_cons]
      have := List.length_pos.mpr (utf8EncodeChar_ne_nil c)
      omega
  exact utf8DecodeAux_flatMap s.data _ hlen

/-! ## Hex encoding lemmas -/

theorem hexDigit_mem (n : Nat) (h : n < 16) : hexDigit n ∈ hexAlphabet :=
  List.mem_map.mpr ⟨n, List.mem_range.mpr h, rfl⟩

theorem hexEncode_data_cons (b : Nat) (bs : List Nat) :
    (hexEncode (b :: bs)).data =
      hexDigit (b % 256 / 16) :: hexDigit (b % 256 % 16) :: (hexEncode bs).data := rfl

theorem hexEncode_length (bs : List Nat) : (hexEncode bs).length = 2 * bs.length := by
  induction bs with
  | nil => rfl
  | cons b rest ih =>
    show (hexEncode (b :: rest)).data.length = 2 * (b :: rest).length
    rw [hexEncode_data_cons]
    simp only [List.length_cons]
    have : (hexEncode rest).data.length = 2 * rest.length := ih
    omega

theorem hexEncode_mem_alphabet (bs : List Nat) :
    ∀ c ∈ (hexEncode bs).data, c ∈ hexAlphabet := by
  induction bs with
  | nil => intro c hc; cases hc
  | cons b rest ih =>
    intro c hc
    rw [hexEncode_data_cons, List.mem_cons, List.mem_cons] at hc
    rcases hc with h | h | h
    · subst h; exact hexDigit_mem _ (by omega)
    · subst h; exact hexDigit_mem _ (by omega)
    · exact ih c h

/-! ## The slot rewrite performed by poll -/

theorem pollRewriteSlot_spec (blake3 : List Nat → List Nat) (slotData randTag : List Nat)
    (visibleTime : Int) (newPollCount : Nat)
    (hlen : 86 ≤ slotData.length) (htag : randTag.length = 30)
    (hhash : ∀ bs, (blake3 bs).length = 32) :
    (pollRewriteSlot blake3 slotData randTag visibleTime newPollCount).length = 86 ∧
    readAt (pollRewriteSlot blake3 slotData randTag visibleTime newPollCount) 32 1 = [0] ∧
    readAt (pollRewriteSlot blake3 slotData randTag visibleTime newPollCount) 0 32 =
      blake3 ((pollRewriteSlot blake3 slotData randTag visibleTime newPollCount).drop 32) ∧
    readAt (pollRewriteSlot blake3 slotData randTag visibleTime newPollCount) 33 1 = [1] ∧
    readAt (pollRewriteSlot blake3 slotData randTag visibleTime newPollCount) 34 30 = randTag ∧
    readAt (pollRewriteSlot blake3 slotData randTag visibleTime newPollCount) 72 8 =
      i64be visibleTime ∧
    readAt (pollRewriteSlot blake3 slotData randTag visibleTime newPollCount) 80 4 =
      beBytes 4 newPollCount ∧
    readAt (pollRewriteSlot blake3 slotData randTag visibleTime newPollCount) 64 8 =
      readAt slotData 64 8 := by
  have h0 : (slotData.take 86).length = 86 := by
    simp only [List.length_take]; omega
  set s0 := slotData.take 86 with hs0
  set s1 := writeAt s0 32 [0] with hs1
  have l1 : s1.length = 86 := by
    rw [hs1, writeAt_length] <;> simp [h0]
  set s2 := writeAt s1 33 [1] with hs2
  have l2 : s2.length = 86 := by
    rw [hs2, writeAt_length] <;> simp [l1]
  set s3 := writeAt s2 34 randTag with hs3
  have l3 : s3.length = 86 := by
    rw [hs3, writeAt_length] <;> (simp [l2, htag])
  set s4 := writeAt s3 72 (i64be visibleTime) with hs4
  have l4 : s4.length = 86 := by
    rw [hs4, writeAt_length] <;> (simp [l3, i64be_length])
  set s5 := writeAt s4 80 (beBytes 4 newPollCount) with hs5
  have l5 : s5.length = 86 := by
    rw [hs5, writeAt_length] <;> (simp [l4, beBytes_length])
  have hw : pollRewriteSlot blake3 slotData randTag visibleTime newPollCount =
      writeAt s5 0 (blake3 (s5.drop 32)) := by
    simp only [pollRewriteSlot, SLOT_FIXED_FIELDS_LEN, SLOT_OFFSETOF_HASH_INCLUDES_CONTENTS,
      SLOT_OFFSETOF_STATE, SLOT_OFFSETOF_POLL_TAG, SLOT_OFFSETOF_VISIBLE_TS,
      SLOT_OFFSETOF_POLL_COUNT, SLOT_OFFSETOF_HASH, hs0, hs1, hs2, hs3, hs4, hs5]
  have hhl : (blake3 (s5.drop 32)).length = 32 := hhash _
  have lw : (writeAt s5 0 (blake3 (s5.drop 32))).length = 86 := by
    rw [writeAt_length] <;> simp [l5, hhl]
  have hdrop : (writeAt s5 0 (blake3 (s5.drop 32))).drop 32 = s5.drop 32 := by
    simp only [writeAt, List.take_zero, List.nil_append, Nat.zero_add]
    rw [List.drop_append_eq_append_drop, hhl]
    simp only [Nat.sub_self, List.drop_zero]
    rw [List.drop_eq_nil_of_le (by omega), List.nil_append]
  rw [hw]
  refine ⟨lw, ?_, ?_, ?_, ?_, ?_, ?_, ?_⟩
  · rw [readAt_writeAt_after (by simp [hhl]) (by simp [hhl, l5]),
      hs5, readAt_writeAt_before (by omega) (by omega),
      hs4, readAt_writeAt_before (by simp [i64be_length]) (by simp [l3, i64be_length]),
      hs3, readAt_writeAt_before (by omega) (by omega),
      hs2, readAt_writeAt_before (by omega) (by omega),
      hs1]
    have : readAt (writeAt s0 32 [0]) 32 1 = [0] := by
      have := @readAt_writeAt_self s0 [0] 32 (by simp [h0])
      simpa using this
    exact this
  · rw [show readAt (writeAt s5 0 (blake3 (s5.drop 32))) 0 32 =
        readAt (writeAt s5 0 (blake3 (s5.drop 32))) 0 (blake3 (s5.drop 32)).length by
          rw [hhl],
      readAt_writeAt_self (by simp [hhl, l5]), hdrop]
  · rw [readAt_writeAt_after (by simp [hhl]) (by simp [hhl, l5]),
      hs5, readAt_writeAt_before (by omega) (by omega),
      hs4, readAt_writeAt_before (by simp [i64be_length]) (by simp [l3, i64be_length]),
      hs3, readAt_writeAt_before (by omega) (by omega),
      hs2]
    have := @readAt_writeAt_self s1 [1] 33 (by simp [l1])
    simpa using this
  · rw [readAt_writeAt_after (by simp [hhl]) (by simp [hhl, l5]),
      hs5, readAt_writeAt_before (by omega) (by omega),
      hs4, readAt_writeAt_before (by simp [i64be_length]) (by simp [l3, i64be_length]),
      hs3]
    have := @readAt_writeAt_self s2 randTag 34 (by simp [l2, htag])
    rwa [htag] at this
  · rw [readAt_writeAt_after (by simp [hhl]) (by simp [hhl, l5]),
      hs5, readAt_writeAt_before (by omega) (by omega),
      hs4]
    have := @readAt_writeAt_self s3 (i64be visibleTime) 72 (by simp [l3, i64be_length])
    rwa [i64be_length] at this
  · rw [readAt_writeAt_after (by simp [hhl]) (by simp [hhl, l5]),
      hs5]
    have := @readAt_writeAt_self s4 (beBytes 4 newPollCount) 80 (by simp [l4, beBytes_length])
    rwa [beBytes_length] at this
  · rw [readAt_writeAt_after (by simp [hhl]) (by simp [hhl, l5]),
      hs5, readAt_writeAt_before (by omega) (by omega),
      hs4, readAt_writeAt_before (by simp [i64be_length]) (by simp [l3, i64be_length]),
      hs3, readAt_writeAt_after (by simp [htag]) (by simp [l2, htag]),
      hs2, readAt_writeAt_after (by simp) (by simp [l1]),
      hs1, readAt_writeAt_after (by simp) (by simp [h0]),
      hs0, readAt_take (by omega)]

/-! ## The successful poll path -/

theorem endpoint_poll_success_eq (blake3 : List Nat → List Nat) (ctx : ServerCtx)
    (now vt : Int) (randTag : List Nat) (index : Nat) (rest : List (Nat × Int))
    (cs : List Char)
    (hsusp : ctx.suspendPoll = false)
    (hpop : removeEarliestUpTo ctx.available now = (some index, rest))
    (hdec : utf8Decode (readAt (ctx.device index) SLOT_OFFSETOF_CONTENTS
        (beVal (readAt (ctx.device index) SLOT_OFFSETOF_LEN 2))) = some cs) :
    endpoint_poll blake3 ctx now vt randTag =
      some (.ok ⟨some
          { contents := String.mk cs,
            created := i64ofBe (readAt (ctx.device index) SLOT_OFFSETOF_CREATED_TS 8),
            index := ⟨index % 2 ^ 32, Nat.mod_lt _ (by norm_num)⟩,
            poll_count := ⟨(beVal (readAt (ctx.device index) SLOT_OFFSETOF_POLL_COUNT 4) + 1) % 2 ^ 32,
              Nat.mod_lt _ (by norm_num)⟩,
            poll_tag := hexEncode randTag }⟩,
        { ctx with
            available := (index, now + vt) :: rest,
            metrics :=
              { ctx.metrics with
                  successful_poll_counter := ctx.metrics.successful_poll_counter + 1 } },
        [(index, pollRewriteSlot blake3 (ctx.device index) randTag (now + vt)
            ((beVal (readAt (ctx.device index) SLOT_OFFSETOF_POLL_COUNT 4) + 1) % 2 ^ 32))]) := by
  simp only [endpoint_poll, hsusp, Bool.false_eq_true, if_false, hpop, hdec]

/-! ## C1: poll-tag guarding of update and delete -/

/-- C1: for every id tracked by the visibility index with current tag `tag`,
an update or delete presenting a different tag fails (update returns
MessageNotFound and bumps missing_update_counter; delete skips the entry,
bumps missing_delete_counter, and leaves all state for the id unchanged),
while presenting the current tag always succeeds, absent suspension. -/
theorem C1_poll_tag_guard (ctx : QueueCtx) (now : Int) (id tag tag' : Nat) (vt vt' : Int)
    (hu : ctx.updateSuspended = false) (hd : ctx.deleteSuspended = false)
    (htag : lookupTag ctx.messages id = some tag) :
    (tag' ≠ tag →
      op_update ctx now ⟨id, tag', vt⟩ =
        (.error .MessageNotFound,
         { ctx with metrics :=
            { ctx.metrics with
                missing_update_counter := ctx.metrics.missing_update_counter + 1 } },
         []) ∧
      op_delete ctx [⟨id, tag'⟩] =
        (.ok ⟨⟩,
         { ctx with metrics :=
            { ctx.metrics with
                missing_delete_counter := ctx.metrics.missing_delete_counter + 1 } },
         [.batchCommit, .submitAndWait 0])) ∧
    ((∃ out ctx2 ev, op_update ctx now ⟨id, tag, vt'⟩ = (.ok out, ctx2, ev)) ∧
     (∃ msgs2, removeIfPollTagMatches ctx.messages id tag = (true, msgs2) ∧
       op_delete ctx [⟨id, tag⟩] =
        (.ok ⟨⟩,
         { ctx with
            messages := msgs2,
            metrics :=
              { ctx.metrics with
                  successful_delete_counter := ctx.metrics.successful_delete_counter + 1 } },
         [.batchRemove (.MessageData id), .batchRemove (.MessagePollTag id),
          .batchRemove (.MessageVisibleTimestampSec id), .batchCommit,
          .submitAndWait 0]))) := by
  have hm := removeIfPollTagMatches_match ctx.messages id tag htag
  rcases hP : removeIfPollTagMatches ctx.messages id tag with ⟨b, msgs2⟩
  have hb : b = true := by rw [hP] at hm; exact hm
  subst hb
  refine ⟨fun hne => ?_, ?_, ?_⟩
  · have hrm := removeIfPollTagMatches_mismatch ctx.messages id tag tag' htag hne
    constructor
    · simp only [op_update, hu, Bool.false_eq_true, if_false, hrm]
    · simp only [op_delete, hd, Bool.false_eq_true, if_false, deleteLoop, hrm,
        List.nil_append]
  · exact ⟨⟨(tag + 1) % 2 ^ 32⟩,
      { ctx with
          messages := visInsert msgs2 id (now + vt') ((tag + 1) % 2 ^ 32),
          metrics :=
            { ctx.metrics with
                successful_update_counter := ctx.metrics.successful_update_counter + 1 } },
      [.batchInsert (.MessagePollTag id) (u32le ((tag + 1) % 2 ^ 32)),
       .batchInsert (.MessageVisibleTimestampSec id) (i40le (now + vt')),
       .batchCommit, .submitAndWait 0],
      by simp only [op_update, hu, Bool.false_eq_true, if_false, hP, if_true]⟩
  · refine ⟨msgs2, rfl, ?_⟩
    simp only [op_delete, hd, Bool.false_eq_true, if_false, deleteLoop, hP, if_true,
      ite_true, List.nil_append, List.cons_append]

/-- A concrete libqueued context for witnesses: one tracked message,
id 5, visible at 10, current poll tag 7. -/
def ctxQ1 : QueueCtx := { messages := [(5, 10, 7)] }

/-- Witness for C1 at a concrete input: tag 3 differs from the stored tag 7,
so update fails; presenting 7 succeeds. -/
theorem C1_poll_tag_guard_witness :
    (op_update ctxQ1 100 ⟨5, 3, 20⟩ =
      (.error .MessageNotFound,
       { ctxQ1 with metrics :=
          { ctxQ1.metrics with
              missing_update_counter := ctxQ1.metrics.missing_update_counter + 1 } },
       [])) ∧
    (∃ out ctx2 ev, op_update ctxQ1 100 ⟨5, 7, 30⟩ = (.ok out, ctx2, ev)) :=
  ⟨((C1_poll_tag_guard ctxQ1 100 5 7 3 20 30 rfl rfl (by decide)).1 (by decide)).1,
   (C1_poll_tag_guard ctxQ1 100 5 7 3 20 30 rfl rfl (by decide)).2.1⟩

/-! ## C3: the successful update path -/

/-- C3: for every update whose poll tag matches, the operation computes
`new_visible_ts = now + visibility_timeout_secs` and
`new_poll_tag = poll_tag + 1`, persists the two metadata keys as one batch,
waits on the barrier, reinserts `(id, new_visible_ts, new_poll_tag)` into
the visibility index, bumps successful_update_counter, and returns the new
tag.  (`poll_tag` is a u32; the hypothesis `poll_tag + 1 < 2 ^ 32` states
the increment does not wrap.) -/
theorem C3_update_success (ctx : QueueCtx) (now : Int) (req : UpdateInput)
    (hs : ctx.updateSuspended = false)
    (hmatch : lookupTag ctx.messages req.id = some req.poll_tag)
    (hlt : req.poll_tag + 1 < 2 ^ 32) :
    ∃ msgs2, removeIfPollTagMatches ctx.messages req.id req.poll_tag = (true, msgs2) ∧
      op_update ctx now req =
        (.ok ⟨req.poll_tag + 1⟩,
         { ctx with
             messages := (req.id, now + req.visibility_timeout_secs, req.poll_tag + 1) :: msgs2,
             metrics :=
               { ctx.metrics with
                   successful_update_counter := ctx.metrics.successful_update_counter + 1 } },
         [.batchInsert (.MessagePollTag req.id) (u32le (req.poll_tag + 1)),
          .batchInsert (.MessageVisibleTimestampSec req.id)
            (i40le (now + req.visibility_timeout_secs)),
          .batchCommit, .submitAndWait 0]) := by
  have hm := removeIfPollTagMatches_match ctx.messages req.id req.poll_tag hmatch
  rcases hP : removeIfPollTagMatches ctx.messages req.id req.poll_tag with ⟨b, msgs2⟩
  have hb : b = true := by rw [hP] at hm; exact hm
  subst hb
  have hmod : (req.poll_tag + 1) % 2 ^ 32 = req.poll_tag + 1 := Nat.mod_eq_of_lt hlt
  refine ⟨msgs2, rfl, ?_⟩
  simp only [op_update, hs, Bool.false_eq_true, if_false, hP, if_true, hmod, visInsert]

/-- Witness for C3 at a concrete input. -/
theorem C3_update_success_witness :
    ∃ msgs2, removeIfPollTagMatches ctxQ1.messages 5 7 = (true, msgs2) ∧
      op_update ctxQ1 100 ⟨5, 7, 30⟩ =
        (.ok ⟨8⟩,
         { ctxQ1 with
             messages := (5, 130, 8) :: msgs2,
             metrics :=
               { ctxQ1.metrics with
                   successful_update_counter := ctxQ1.metrics.successful_update_counter + 1 } },
         [.batchInsert (.MessagePollTag 5) (u32le 8),
          .batchInsert (.MessageVisibleTimestampSec 5) (i40le 130),
          .batchCommit, .submitAndWait 0]) :=
  C3_update_success ctxQ1 100 ⟨5, 7, 30⟩ rfl (by decide) (by decide)

/-! ## C9: update does not validate the visibility timeout -/

/-- C9: update accepts any negative `visibility_timeout_secs` when the tag
matches, yielding a reinserted entry whose visible timestamp
`now + visibility_timeout_secs` lies in the past (so the message is
immediately deliverable), and update never returns
InvalidVisibilityTimeout on any input. -/
theorem C9_update_no_timeout_validation (ctx : QueueCtx) (now : Int) (req : UpdateInput)
    (hs : ctx.updateSuspended = false)
    (hmatch : lookupTag ctx.messages req.id = some req.poll_tag)
    (hneg : req.visibility_timeout_secs < 0) :
    (∃ out ctx2 ev msgs2, op_update ctx now req = (.ok out, ctx2, ev) ∧
       ctx2.messages =
         (req.id, now + req.visibility_timeout_secs, (req.poll_tag + 1) % 2 ^ 32) :: msgs2 ∧
       now + req.visibility_timeout_secs < now) ∧
    (∀ (ctx3 : QueueCtx) (now3 : Int) (req3 : UpdateInput) (e : OpError),
       (op_update ctx3 now3 req3).1 = .error e →
       e = .Suspended ∨ e = .MessageNotFound) := by
  constructor
  · have hm := removeIfPollTagMatches_match ctx.messages req.id req.poll_tag hmatch
    rcases hP : removeIfPollTagMatches ctx.messages req.id req.poll_tag with ⟨b, msgs2⟩
    have hb : b = true := by rw [hP] at hm; exact hm
    subst hb
    refine ⟨⟨(req.poll_tag + 1) % 2 ^ 32⟩,
      { ctx with
          messages := (req.id, now + req.visibility_timeout_secs,
            (req.poll_tag + 1) % 2 ^ 32) :: msgs2,
          metrics :=
            { ctx.metrics with
                successful_update_counter := ctx.metrics.successful_update_counter + 1 } },
      [.batchInsert (.MessagePollTag req.id) (u32le ((req.poll_tag + 1) % 2 ^ 32)),
       .batchInsert (.MessageVisibleTimestampSec req.id)
         (i40le (now + req.visibility_timeout_secs)),
       .batchCommit, .submitAndWait 0],
      msgs2, ?_, rfl, by omega⟩
    simp only [op_update, hs, Bool.false_eq_true, if_false, hP, if_true, visInsert]
  · intro ctx3 now3 req3 e he
    by_cases h3 : ctx3.updateSuspended
    · simp only [op_update, h3, if_true] at he
      exact Or.inl (by injection he with h; exact h.symm)
    · simp only [op_update, h3, Bool.false_eq_true, if_false] at he
      by_cases h4 : (removeIfPollTagMatches ctx3.messages req3.id req3.poll_tag).1
      · rw [if_pos h4] at he
        cases he
      · rw [if_neg h4] at he
        exact Or.inr (by injection he with h; exact h.symm)

/-- Witness for C9 at a concrete input: a matching update with timeout -50. -/
theorem C9_update_no_timeout_validation_witness :
    (∃ out ctx2 ev msgs2, op_update ctxQ1 100 ⟨5, 7, -50⟩ = (.ok out, ctx2, ev) ∧
       ctx2.messages = (5, (100 : Int) + (-50), (7 + 1) % 2 ^ 32) :: msgs2 ∧
       (100 : Int) + (-50) < 100) ∧
    (∀ (ctx3 : QueueCtx) (now3 : Int) (req3 : UpdateInput) (e : OpError),
       (op_update ctx3 now3 req3).1 = .error e →
       e = .Suspended ∨ e = .MessageNotFound) :=
  C9_update_no_timeout_validation ctxQ1 100 ⟨5, 7, -50⟩ rfl (by decide) (by decide)

/-! ## C7: delete stages one shared batch, commits once, one barrier -/

theorem removeIfPollTagMatches_false_snd (l : List (Nat × Int × Nat)) (id tag : Nat)
    (h : (removeIfPollTagMatches l id tag).1 = false) :
    (removeIfPollTagMatches l id tag).2 = l := by
  induction l with
  | nil => rfl
  | cons e rest ih =>
    by_cases he : e.1 = id
    · by_cases ht : e.2.2 = tag
      · simp [removeIfPollTagMatches, he, ht] at h
      · simp [removeIfPollTagMatches, he, ht]
    · simp only [removeIfPollTagMatches, if_neg he] at h ⊢
      rw [ih h]

/-- Follows the words of the spec for delete (§4.6): the per-element match
outcome for each input pair, threading the index through the removals. -/
def deleteSpecOutcomes : List (Nat × Int × Nat) → List DeleteInputMessage → List Bool
  | _, [] => []
  | msgs, m :: rest =>
    let r := removeIfPollTagMatches msgs m.id m.poll_tag
    r.1 :: deleteSpecOutcomes r.2 rest

/-- Follows the words of the spec (§4.6): the removals delete stages, three
keys per matched input pair, in input order. -/
def deleteSpecStagedRemovals (req : List DeleteInputMessage) (outcomes : List Bool) :
    List DbEvent :=
  ((req.zip outcomes).filter (fun p => p.2)).flatMap
    (fun p => [.batchRemove (.MessageData p.1.id), .batchRemove (.MessagePollTag p.1.id),
               .batchRemove (.MessageVisibleTimestampSec p.1.id)])

theorem deleteSpecStagedRemovals_cons_true (m : DeleteInputMessage)
    (rest : List DeleteInputMessage) (outs : List Bool) :
    deleteSpecStagedRemovals (m :: rest) (true :: outs) =
      .batchRemove (.MessageData m.id) :: .batchRemove (.MessagePollTag m.id) ::
        .batchRemove (.MessageVisibleTimestampSec m.id) ::
          deleteSpecStagedRemovals rest outs := by
  simp [deleteSpecStagedRemovals]

theorem deleteSpecStagedRemovals_cons_false (m : DeleteInputMessage)
    (rest : List DeleteInputMessage) (outs : List Bool) :
    deleteSpecStagedRemovals (m :: rest) (false :: outs) =
      deleteSpecStagedRemovals rest outs := by
  simp [deleteSpecStagedRemovals]

theorem deleteLoop_refines_spec (req : List DeleteInputMessage) :
    ∀ (metrics : Metrics) (msgs : List (Nat × Int × Nat)),
      (deleteLoop metrics msgs req).2.2 =
        deleteSpecStagedRemovals req (deleteSpecOutcomes msgs req) ∧
      (deleteLoop metrics msgs req).1.successful_delete_counter =
        metrics.successful_delete_counter + (deleteSpecOutcomes msgs req).count true ∧
      (deleteLoop metrics msgs req).1.missing_delete_counter =
        metrics.missing_delete_counter + (deleteSpecOutcomes msgs req).count false := by
  induction req with
  | nil => intro metrics msgs; exact ⟨rfl, rfl, rfl⟩
  | cons m rest ih =>
    intro metrics msgs
    by_cases hr : (removeIfPollTagMatches msgs m.id m.poll_tag).1
    · have hloop : deleteLoop metrics msgs (m :: rest) =
          (let out := deleteLoop
            { metrics with
                successful_delete_counter := metrics.successful_delete_counter + 1 }
            (removeIfPollTagMatches msgs m.id m.poll_tag).2 rest
           (out.1, out.2.1,
            .batchRemove (.MessageData m.id) :: .batchRemove (.MessagePollTag m.id) ::
              .batchRemove (.MessageVisibleTimestampSec m.id) :: out.2.2)) := by
        simp only [deleteLoop, hr, if_true, ite_true]
      have hout : deleteSpecOutcomes msgs (m :: rest) =
          true :: deleteSpecOutcomes (removeIfPollTagMatches msgs m.id m.poll_tag).2 rest := by
        simp only [deleteSpecOutcomes, hr]
      obtain ⟨ih1, ih2, ih3⟩ := ih
        { metrics with
            successful_delete_counter := metrics.successful_delete_counter + 1 }
        (removeIfPollTagMatches msgs m.id m.poll_tag).2
      refine ⟨?_, ?_, ?_⟩
      · rw [hloop, hout, deleteSpecStagedRemovals_cons_true]
        dsimp only
        rw [ih1]
      · rw [hloop, hout]
        dsimp only
        rw [ih2]
        dsimp only
        simp only [List.count_cons, beq_self_eq_true, if_true, ite_true, beq_iff_eq,
          reduceCtorEq, if_false, ite_false]
        omega
      · rw [hloop, hout]
        dsimp only
        rw [ih3]
        dsimp only
        simp only [List.count_cons, beq_self_eq_true, if_true, ite_true, beq_iff_eq,
          reduceCtorEq, if_false, ite_false]
        omega
    · have hfalse : (removeIfPollTagMatches msgs m.id m.poll_tag).1 = false := by
        simpa using hr
      have hsnd := removeIfPollTagMatches_false_snd msgs m.id m.poll_tag hfalse
      have hloop : deleteLoop metrics msgs (m :: rest) =
          deleteLoop
            { metrics with
                missing_delete_counter := metrics.missing_delete_counter + 1 }
            msgs rest := by
        simp only [deleteLoop, hfalse, Bool.false_eq_true, if_false, ite_false]
      have hout : deleteSpecOutcomes msgs (m :: rest) =
          false :: deleteSpecOutcomes msgs rest := by
        simp only [deleteSpecOutcomes, hfalse, hsnd]
      obtain ⟨ih1, ih2, ih3⟩ := ih
        { metrics with missing_delete_counter := metrics.missing_delete_counter + 1 } msgs
      refine ⟨?_, ?_, ?_⟩
      · rw [hloop, hout, deleteSpecStagedRemovals_cons_false]
        exact ih1
      · rw [hloop, hout]
        rw [ih2]
        dsimp only
        simp only [List.count_cons, beq_self_eq_true, if_true, ite_true, beq_iff_eq,
          reduceCtorEq, if_false, ite_false]
        omega
      · rw [hloop, hout]
        rw [ih3]
        dsimp only
        simp only [List.count_cons, beq_self_eq_true, if_true, ite_true, beq_iff_eq,
          reduceCtorEq, if_false, ite_false]
        omega

/-- C7: for every delete request (not suspended), each input pair either
fails the tag check (missing counter, skipped, no error reported) or stages
removals of the MessageData, MessagePollTag and MessageVisibleTimestampSec
keys in the single shared batch (successful counter); the staged removals
are followed by exactly one batch commit and one barrier wait, and the
operation returns the empty output. -/
theorem C7_delete_batch (ctx : QueueCtx) (req : List DeleteInputMessage)
    (hs : ctx.deleteSuspended = false) :
    op_delete ctx req =
      (.ok ⟨⟩,
       { ctx with
           metrics := (deleteLoop ctx.metrics ctx.messages req).1,
           messages := (deleteLoop ctx.metrics ctx.messages req).2.1 },
       deleteSpecStagedRemovals req (deleteSpecOutcomes ctx.messages req) ++
         [.batchCommit, .submitAndWait 0]) ∧
    (deleteLoop ctx.metrics ctx.messages req).1.successful_delete_counter =
      ctx.metrics.successful_delete_counter +
        (deleteSpecOutcomes ctx.messages req).count true ∧
    (deleteLoop ctx.metrics ctx.messages req).1.missing_delete_counter =
      ctx.metrics.missing_delete_counter +
        (deleteSpecOutcomes ctx.messages req).count false := by
  obtain ⟨h1, h2, h3⟩ := deleteLoop_refines_spec req ctx.metrics ctx.messages
  refine ⟨?_, h2, h3⟩
  simp only [op_delete, hs, Bool.false_eq_true, if_false, h1]

/-- Witness for C7 at a concrete input: one matching pair, one mismatching. -/
theorem C7_delete_batch_witness :
    op_delete ctxQ1 [⟨5, 7⟩, ⟨9, 4⟩] =
      (.ok ⟨⟩,
       { ctxQ1 with
           metrics := (deleteLoop ctxQ1.metrics ctxQ1.messages [⟨5, 7⟩, ⟨9, 4⟩]).1,
           messages := (deleteLoop ctxQ1.metrics ctxQ1.messages [⟨5, 7⟩, ⟨9, 4⟩]).2.1 },
       deleteSpecStagedRemovals [⟨5, 7⟩, ⟨9, 4⟩]
           (deleteSpecOutcomes ctxQ1.messages [⟨5, 7⟩, ⟨9, 4⟩]) ++
         [.batchCommit, .submitAndWait 0]) ∧
    (deleteLoop ctxQ1.metrics ctxQ1.messages [⟨5, 7⟩, ⟨9, 4⟩]).1.successful_delete_counter =
      ctxQ1.metrics.successful_delete_counter +
        (deleteSpecOutcomes ctxQ1.messages [⟨5, 7⟩, ⟨9, 4⟩]).count true ∧
    (deleteLoop ctxQ1.metrics ctxQ1.messages [⟨5, 7⟩, ⟨9, 4⟩]).1.missing_delete_counter =
      ctxQ1.metrics.missing_delete_counter +
        (deleteSpecOutcomes ctxQ1.messages [⟨5, 7⟩, ⟨9, 4⟩]).count false :=
  C7_delete_batch ctxQ1 [⟨5, 7⟩, ⟨9, 4⟩] rfl

/-! ## C8: suspension short-circuits every operation -/

/-- C8: when the suspension flag of an operation is set, the operation bumps
only the corresponding suspended counter and fails (HTTP 503 for the push
and poll endpoints, OpError.Suspended for update and delete), with no id
allocation, no storage or batch event, and no other state change. -/
theorem C8_suspension (blake3 : List Nat → List Nat) (ctxS : ServerCtx) (ctxQ : QueueCtx)
    (now vt : Int) (pushReq : List PushInputMessage) (randTag : List Nat)
    (updReq : UpdateInput) (delReq : List DeleteInputMessage)
    (h1 : ctxS.suspendPush = true) (h2 : ctxS.suspendPoll = true)
    (h3 : ctxQ.updateSuspended = true) (h4 : ctxQ.deleteSuspended = true) :
    endpoint_push ctxS now pushReq =
      (.error suspendedHttpError,
       { ctxS with metrics :=
          { ctxS.metrics with
              suspended_push_counter := ctxS.metrics.suspended_push_counter + 1 } },
       []) ∧
    endpoint_poll blake3 ctxS now vt randTag =
      some (.error suspendedHttpError,
        { ctxS with metrics :=
            { ctxS.metrics with
                suspended_poll_counter := ctxS.metrics.suspended_poll_counter + 1 } },
        []) ∧
    op_update ctxQ now updReq =
      (.error .Suspended,
       { ctxQ with metrics :=
          { ctxQ.metrics with
              suspended_update_counter := ctxQ.metrics.suspended_update_counter + 1 } },
       []) ∧
    op_delete ctxQ delReq =
      (.error .Suspended,
       { ctxQ with metrics :=
          { ctxQ.metrics with
              suspended_delete_counter := ctxQ.metrics.suspended_delete_counter + 1 } },
       []) := by
  refine ⟨?_, ?_, ?_, ?_⟩
  · simp only [endpoint_push, h1, if_true, ite_true]
  · simp only [endpoint_poll, h2, if_true, ite_true]
  · simp only [op_update, h3, if_true, ite_true]
  · simp only [op_delete, h4, if_true, ite_true]

/-- A fully suspended server context for the C8 witness. -/
def ctxS8 : ServerCtx := { suspendPush := true, suspendPoll := true }

/-- A fully suspended libqueued context for the C8 witness. -/
def ctxQ8 : QueueCtx := { updateSuspended := true, deleteSuspended := true }

/-- Witness for C8 at concrete inputs. -/
theorem C8_suspension_witness :
    endpoint_push ctxS8 0 [⟨"a", 0⟩] =
      (.error suspendedHttpError,
       { ctxS8 with metrics :=
          { ctxS8.metrics with
              suspended_push_counter := ctxS8.metrics.suspended_push_counter + 1 } },
       []) ∧
    endpoint_poll (fun _ => []) ctxS8 0 0 [] =
      some (.error suspendedHttpError,
        { ctxS8 with metrics :=
            { ctxS8.metrics with
                suspended_poll_counter := ctxS8.metrics.suspended_poll_counter + 1 } },
        []) ∧
    op_update ctxQ8 0 ⟨1, 2, 3⟩ =
      (.error .Suspended,
       { ctxQ8 with metrics :=
          { ctxQ8.metrics with
              suspended_update_counter := ctxQ8.metrics.suspended_update_counter + 1 } },
       []) ∧
    op_delete ctxQ8 [⟨1, 2⟩] =
      (.error .Suspended,
       { ctxQ8 with metrics :=
          { ctxQ8.metrics with
              suspended_delete_counter := ctxQ8.metrics.suspended_delete_counter + 1 } },
       []) :=
  C8_suspension (fun _ => []) ctxS8 ctxQ8 0 0 [⟨"a", 0⟩] [] ⟨1, 2, 3⟩ [⟨1, 2⟩]
    rfl rfl rfl rfl

/-! ## Push: closed forms for the validation loop -/

/-- The per-element disposition of one push input, in source order:
contents size is checked first, then the negative timeout. -/
def pushElemError (maxLen : Nat) (msg : PushInputMessage) : Option PushErrorType :=
  if maxLen < (utf8Encode msg.contents).length then some .ContentsTooLarge
  else if msg.visibility_timeout_secs < 0 then some .InvalidVisibilityTimeout
  else none

theorem pushLoop_errors_eq (maxLen : Nat) (now : Int) (base : Nat) :
    ∀ (req : List PushInputMessage) (k : Nat),
      (pushLoop maxLen now base k req).1 =
        (req.enumFrom k).filterMap
          (fun p => (pushElemError maxLen p.2).map (fun t => ⟨t, p.1⟩)) := by
  intro req
  induction req with
  | nil => intro k; rfl
  | cons hd tl ih =>
    intro k
    rw [List.enumFrom_cons, List.filterMap_cons]
    by_cases h1 : maxLen < (utf8Encode hd.contents).length
    · have hpe : pushElemError maxLen hd = some .ContentsTooLarge := by
        simp [pushElemError, h1]
      simp only [hpe, Option.map_some]
      simp only [pushLoop, if_pos h1]
      rw [ih]
      rfl
    · by_cases h2 : hd.visibility_timeout_secs < 0
      · have hpe : pushElemError maxLen hd = some .InvalidVisibilityTimeout := by
          simp [pushElemError, h1, h2]
        simp only [hpe, Option.map_some]
        simp only [pushLoop, if_neg h1, if_pos h2]
        rw [ih]
        rfl
      · have hpe : pushElemError maxLen hd = none := by
          simp [pushElemError, h1, h2]
        simp only [hpe, Option.map_none]
        simp only [pushLoop, if_neg h1, if_neg h2]
        rw [ih]
        rfl

theorem pushLoop_creations_eq (maxLen : Nat) (now : Int) (base : Nat) :
    ∀ (req : List PushInputMessage) (k : Nat),
      (pushLoop maxLen now base k req).2.2 =
        (req.enumFrom k).filterMap
          (fun p => if (pushElemError maxLen p.2).isNone
            then some ⟨base + p.1, p.2.contents, now + p.2.visibility_timeout_secs⟩
            else none) := by
  intro req
  induction req with
  | nil => intro k; rfl
  | cons hd tl ih =>
    intro k
    rw [List.enumFrom_cons, List.filterMap_cons]
    by_cases h1 : maxLen < (utf8Encode hd.contents).length
    · have hpe : pushElemError maxLen hd = some .ContentsTooLarge := by
        simp [pushElemError, h1]
      simp only [hpe, Option.isNone_some, Bool.false_eq_true, if_false, ite_false]
      simp only [pushLoop, if_pos h1]
      rw [ih]
    · by_cases h2 : hd.visibility_timeout_secs < 0
      · have hpe : pushElemError maxLen hd = some .InvalidVisibilityTimeout := by
          simp [pushElemError, h1, h2]
        simp only [hpe, Option.isNone_some, Bool.false_eq_true, if_false, ite_false]
        simp only [pushLoop, if_neg h1, if_pos h2]
        rw [ih]
      · have hpe : pushElemError maxLen hd = none := by
          simp [pushElemError, h1, h2]
        simp only [hpe, Option.isNone_none, if_true, ite_true]
        simp only [pushLoop, if_neg h1, if_neg h2]
        rw [ih]

theorem endpoint_push_not_suspended (ctx : ServerCtx) (now : Int)
    (req : List PushInputMessage) (hs : ctx.suspendPush = false) :
    endpoint_push ctx now req =
      (.ok ⟨(pushLoop ctx.maxContentsLen now ctx.idNext 0 req).1⟩,
       { ctx with
           idNext := ctx.idNext + req.length,
           invisible := (pushLoop ctx.maxContentsLen now ctx.idNext 0 req).2.1.foldl
             (fun inv e => e :: inv) ctx.invisible,
           metrics :=
             { ctx.metrics with
                 successful_push_counter := ctx.metrics.successful_push_counter + 1 } },
       (pushLoop ctx.maxContentsLen now ctx.idNext 0 req).2.2) := by
  simp only [endpoint_push, hs, Bool.false_eq_true, if_false, ite_false]

/-! ## C4: id-block allocation by push -/

/-- The server context used by the push counterexample and witnesses. -/
def ctxPush : ServerCtx := { maxContentsLen := 100, idNext := 100 }

/-- The two-element push input of the C4 counterexample: element 0 is
rejected (negative timeout), element 1 is accepted. -/
def c4Req : List PushInputMessage := [⟨"a", -1⟩, ⟨"b", 0⟩]

/-- C4 counterexample: on `c4Req` only one element is accepted, yet the id
generator argument is the total input length 2 (idNext advances 100 → 102,
not 100 → 101), and the accepted element receives id base + 1 = 101 (its
input index), not base + 0 = 100 (its index among accepted elements).
Rejected elements do consume ids. -/
theorem C4_counterexample :
    (endpoint_push ctxPush 50 c4Req).2.2 = [⟨101, "b", 50⟩] ∧
    (endpoint_push ctxPush 50 c4Req).2.1.idNext = 102 ∧
    ¬((endpoint_push ctxPush 50 c4Req).2.1.idNext = ctxPush.idNext + 1) ∧
    ¬(∃ c ∈ (endpoint_push ctxPush 50 c4Req).2.2, c.id = ctxPush.idNext) := by
  refine ⟨by decide, by decide, by decide, ?_⟩
  rintro ⟨c, hc, hid⟩
  have : c = ⟨101, "b", 50⟩ := by
    have h := (show (endpoint_push ctxPush 50 c4Req).2.2 = [⟨101, "b", 50⟩] by decide)
    rw [h] at hc
    simpa using hc
  rw [this] at hid
  simp [ctxPush] at hid

/-- C4 (amended): push reserves the id block with `n = req.length`, the
total number of input elements (accepted and rejected alike), and the
accepted element at input index `i` receives `id = base + i`; the ids at
rejected input indices are consumed and skipped. -/
theorem C4_push_id_allocation (ctx : ServerCtx) (now : Int)
    (req : List PushInputMessage) (hs : ctx.suspendPush = false) :
    (endpoint_push ctx now req).2.1.idNext = ctx.idNext + req.length ∧
    (endpoint_push ctx now req).2.2 =
      (req.enumFrom 0).filterMap
        (fun p => if (pushElemError ctx.maxContentsLen p.2).isNone
          then some ⟨ctx.idNext + p.1, p.2.contents, now + p.2.visibility_timeout_secs⟩
          else none) := by
  rw [endpoint_push_not_suspended ctx now req hs]
  exact ⟨rfl, pushLoop_creations_eq _ _ _ req 0⟩

/-- Witness for C4 (amended) at the counterexample input. -/
theorem C4_push_id_allocation_witness :
    (endpoint_push ctxPush 50 c4Req).2.1.idNext = ctxPush.idNext + c4Req.length ∧
    (endpoint_push ctxPush 50 c4Req).2.2 =
      (c4Req.enumFrom 0).filterMap
        (fun p => if (pushElemError ctxPush.maxContentsLen p.2).isNone
          then some ⟨ctxPush.idNext + p.1, p.2.contents, 50 + p.2.visibility_timeout_secs⟩
          else none) :=
  C4_push_id_allocation ctxPush 50 c4Req rfl

/-! ## C6: per-element push validation -/

theorem pushElemError_eq_none_iff (maxLen : Nat) (msg : PushInputMessage) :
    pushElemError maxLen msg = none ↔
      ((utf8Encode msg.contents).length ≤ maxLen ∧ 0 ≤ msg.visibility_timeout_secs) := by
  unfold pushElemError
  split_ifs with h1 h2 <;> simp <;> omega

theorem pushElemError_eq_CTL_iff (maxLen : Nat) (msg : PushInputMessage) :
    pushElemError maxLen msg = some .ContentsTooLarge ↔
      maxLen < (utf8Encode msg.contents).length := by
  unfold pushElemError
  split_ifs with h1 h2 <;> simp [h1]

theorem pushElemError_eq_IVT_iff (maxLen : Nat) (msg : PushInputMessage) :
    pushElemError maxLen msg = some .InvalidVisibilityTimeout ↔
      ((utf8Encode msg.contents).length ≤ maxLen ∧ msg.visibility_timeout_secs < 0) := by
  unfold pushElemError
  split_ifs with h1 h2 <;> simp <;> omega

theorem mem_enumFrom_zero_getElem {α : Type} {l : List α} {p : Nat × α}
    (h : p ∈ l.enumFrom 0) : l[p.1]? = some p.2 := by
  obtain ⟨a, b⟩ := p
  have := List.mk_mem_enumFrom_iff_le_and_getElem?_sub.mp h
  simpa using this.2

theorem getElem_mem_enumFrom_zero {α : Type} {l : List α} {i : Nat} {x : α}
    (h : l[i]? = some x) : (i, x) ∈ l.enumFrom 0 := by
  apply List.mk_mem_enumFrom_iff_le_and_getElem?_sub.mpr
  simpa using h

theorem mem_pushErrors_iff (maxLen : Nat) (now : Int) (base : Nat)
    (req : List PushInputMessage) (i : Nat) (msg : PushInputMessage) (t : PushErrorType)
    (h : req[i]? = some msg) :
    ((⟨t, i⟩ : PushError) ∈ (pushLoop maxLen now base 0 req).1) ↔
      pushElemError maxLen msg = some t := by
  rw [pushLoop_errors_eq]
  constructor
  · intro hm
    rcases List.mem_filterMap.mp hm with ⟨p, hp, hf⟩
    rcases hpe : pushElemError maxLen p.2 with _ | t2
    · rw [hpe] at hf
      cases hf
    · rw [hpe] at hf
      have h1 : t2 = t := congrArg PushError.typ (Option.some.inj hf)
      have h2 : p.1 = i := congrArg PushError.index (Option.some.inj hf)
      have hmem := mem_enumFrom_zero_getElem hp
      rw [h2, h] at hmem
      rw [Option.some.inj hmem, hpe, h1]
  · intro hpe
    apply List.mem_filterMap.mpr
    refine ⟨(i, msg), getElem_mem_enumFrom_zero h, ?_⟩
    simp [hpe]

theorem mem_pushCreations_iff (maxLen : Nat) (now : Int) (base : Nat)
    (req : List PushInputMessage) (i : Nat) (msg : PushInputMessage)
    (h : req[i]? = some msg) :
    (∃ c ∈ (pushLoop maxLen now base 0 req).2.2, c.id = base + i) ↔
      pushElemError maxLen msg = none := by
  rw [pushLoop_creations_eq]
  constructor
  · rintro ⟨c, hc, hid⟩
    rcases List.mem_filterMap.mp hc with ⟨p, hp, hf⟩
    rcases hpe : pushElemError maxLen p.2 with _ | t2
    · rw [hpe] at hf
      simp only [Option.isNone_none, if_true, ite_true] at hf
      have hcid : c.id = base + p.1 := by
        rw [← Option.some.inj hf]
      have h2 : p.1 = i := by omega
      have hmem := mem_enumFrom_zero_getElem hp
      rw [h2, h] at hmem
      rw [Option.some.inj hmem, hpe]
    · rw [hpe] at hf
      simp at hf
  · intro hpe
    refine ⟨⟨base + i, msg.contents, now + msg.visibility_timeout_secs⟩, ?_, rfl⟩
    apply List.mem_filterMap.mpr
    refine ⟨(i, msg), getElem_mem_enumFrom_zero h, ?_⟩
    simp [hpe]

/-- C6: for every push input element at index `i`: it is rejected with
ContentsTooLarge exactly when its contents exceed max_contents_len; when
the contents fit, it is rejected with InvalidVisibilityTimeout exactly when
its timeout is negative; every rejection is reported in the response error
list under the input index `i`; and the element is persisted (with its id)
exactly when neither rejection applies. -/
theorem C6_push_validation (ctx : ServerCtx) (now : Int) (req : List PushInputMessage)
    (hs : ctx.suspendPush = false) :
    (endpoint_push ctx now req).1 =
      .ok ⟨(pushLoop ctx.maxContentsLen now ctx.idNext 0 req).1⟩ ∧
    ∀ (i : Nat) (msg : PushInputMessage), req[i]? = some msg →
      (((⟨.ContentsTooLarge, i⟩ : PushError) ∈
          (pushLoop ctx.maxContentsLen now ctx.idNext 0 req).1) ↔
        ctx.maxContentsLen < (utf8Encode msg.contents).length) ∧
      (((⟨.InvalidVisibilityTimeout, i⟩ : PushError) ∈
          (pushLoop ctx.maxContentsLen now ctx.idNext 0 req).1) ↔
        ((utf8Encode msg.contents).length ≤ ctx.maxContentsLen ∧
          msg.visibility_timeout_secs < 0)) ∧
      ((∃ c ∈ (endpoint_push ctx now req).2.2, c.id = ctx.idNext + i) ↔
        ((utf8Encode msg.contents).length ≤ ctx.maxContentsLen ∧
          0 ≤ msg.visibility_timeout_secs)) := by
  have hrun := endpoint_push_not_suspended ctx now req hs
  refine ⟨by rw [hrun], ?_⟩
  intro i msg h
  refine ⟨?_, ?_, ?_⟩
  · rw [mem_pushErrors_iff ctx.maxContentsLen now ctx.idNext req i msg _ h]
    exact pushElemError_eq_CTL_iff ctx.maxContentsLen msg
  · rw [mem_pushErrors_iff ctx.maxContentsLen now ctx.idNext req i msg _ h]
    exact pushElemError_eq_IVT_iff ctx.maxContentsLen msg
  · rw [hrun]
    rw [mem_pushCreations_iff ctx.maxContentsLen now ctx.idNext req i msg h]
    exact pushElemError_eq_none_iff ctx.maxContentsLen msg

/-- Witness for C6 at a concrete input with one accepted and one rejected
element. -/
theorem C6_push_validation_witness :
    (endpoint_push ctxPush 50 c4Req).1 =
      .ok ⟨(pushLoop ctxPush.maxContentsLen 50 ctxPush.idNext 0 c4Req).1⟩ ∧
    ∀ (i : Nat) (msg : PushInputMessage), c4Req[i]? = some msg →
      (((⟨.ContentsTooLarge, i⟩ : PushError) ∈
          (pushLoop ctxPush.maxContentsLen 50 ctxPush.idNext 0 c4Req).1) ↔
        ctxPush.maxContentsLen < (utf8Encode msg.contents).length) ∧
      (((⟨.InvalidVisibilityTimeout, i⟩ : PushError) ∈
          (pushLoop ctxPush.maxContentsLen 50 ctxPush.idNext 0 c4Req).1) ↔
        ((utf8Encode msg.contents).length ≤ ctxPush.maxContentsLen ∧
          msg.visibility_timeout_secs < 0)) ∧
      ((∃ c ∈ (endpoint_push ctxPush 50 c4Req).2.2, c.id = ctxPush.idNext + i) ↔
        ((utf8Encode msg.contents).length ≤ ctxPush.maxContentsLen ∧
          0 ≤ msg.visibility_timeout_secs)) :=
  C6_push_validation ctxPush 50 c4Req rfl

/-! ## C2, C5, C10: the poll endpoint -/

/-- C2: for every successful poll, the slot is rewritten truncated to its
fixed 86-byte field region with hash_includes_contents = 0, the BLAKE3
hash recomputed over only the bytes from offset 32 of the written slot
(contents excluded), the fresh 30-byte random poll tag at offset 34,
visible_ts = now + visibility_timeout_secs and poll_count = stored + 1
(as u32); the response carries that poll_count and the hex encoding of
the new poll tag. -/
theorem C2_poll_rewrite (blake3 : List Nat → List Nat) (ctx : ServerCtx)
    (now vt : Int) (randTag : List Nat) (index : Nat) (rest : List (Nat × Int))
    (cs : List Char)
    (hsusp : ctx.suspendPoll = false)
    (hpop : removeEarliestUpTo ctx.available now = (some index, rest))
    (hdec : utf8Decode (readAt (ctx.device index) SLOT_OFFSETOF_CONTENTS
        (beVal (readAt (ctx.device index) SLOT_OFFSETOF_LEN 2))) = some cs)
    (hlen : 86 ≤ (ctx.device index).length)
    (htag : randTag.length = 30)
    (hhash : ∀ bs, (blake3 bs).length = 32) :
    ∃ (out : PollOutputMessage) (ctx2 : ServerCtx) (w : List Nat),
      endpoint_poll blake3 ctx now vt randTag =
        some (.ok ⟨some out⟩, ctx2, [(index, w)]) ∧
      w.length = SLOT_FIXED_FIELDS_LEN ∧
      readAt w SLOT_OFFSETOF_HASH_INCLUDES_CONTENTS 1 = [0] ∧
      readAt w SLOT_OFFSETOF_HASH 32 = blake3 (w.drop 32) ∧
      readAt w SLOT_OFFSETOF_POLL_TAG 30 = randTag ∧
      readAt w SLOT_OFFSETOF_VISIBLE_TS 8 = i64be (now + vt) ∧
      readAt w SLOT_OFFSETOF_POLL_COUNT 4 =
        beBytes 4 ((beVal (readAt (ctx.device index) SLOT_OFFSETOF_POLL_COUNT 4) + 1) % 2 ^ 32) ∧
      (out.poll_count : Nat) =
        (beVal (readAt (ctx.device index) SLOT_OFFSETOF_POLL_COUNT 4) + 1) % 2 ^ 32 ∧
      out.poll_tag = hexEncode randTag := by
  obtain ⟨hw1, hw2, hw3, hw4, hw5, hw6, hw7, hw8⟩ :=
    pollRewriteSlot_spec blake3 (ctx.device index) randTag (now + vt)
      ((beVal (readAt (ctx.device index) SLOT_OFFSETOF_POLL_COUNT 4) + 1) % 2 ^ 32)
      hlen htag hhash
  exact ⟨_, _, _,
    endpoint_poll_success_eq blake3 ctx now vt randTag index rest cs hsusp hpop hdec,
    hw1, hw2, hw3, hw5, hw6, hw7, rfl, rfl⟩

/-- The slot bytes used by the poll witnesses: 84 zero bytes (hash, flags,
tag, timestamps, poll count), content length 1, one content byte 65. -/
def pollSlot : List Nat := List.replicate 84 0 ++ [0, 1] ++ [65]

/-- The server context used by the poll witnesses: one available slot
index 3 visible at time 5, every slot holding `pollSlot`. -/
def pollCtx : ServerCtx := { available := [(3, 5)], device := fun _ => pollSlot }

/-- Witness for C2 at a concrete input. -/
theorem C2_poll_rewrite_witness :
    ∃ (out : PollOutputMessage) (ctx2 : ServerCtx) (w : List Nat),
      endpoint_poll (fun _ => List.replicate 32 0) pollCtx 5 7 (List.replicate 30 5) =
        some (.ok ⟨some out⟩, ctx2, [(3, w)]) ∧
      w.length = SLOT_FIXED_FIELDS_LEN ∧
      readAt w SLOT_OFFSETOF_HASH_INCLUDES_CONTENTS 1 = [0] ∧
      readAt w SLOT_OFFSETOF_HASH 32 = (fun _ => List.replicate 32 0) (w.drop 32) ∧
      readAt w SLOT_OFFSETOF_POLL_TAG 30 = List.replicate 30 5 ∧
      readAt w SLOT_OFFSETOF_VISIBLE_TS 8 = i64be (5 + 7) ∧
      readAt w SLOT_OFFSETOF_POLL_COUNT 4 =
        beBytes 4 ((beVal (readAt (pollCtx.device 3) SLOT_OFFSETOF_POLL_COUNT 4) + 1) % 2 ^ 32) ∧
      (out.poll_count : Nat) =
        (beVal (readAt (pollCtx.device 3) SLOT_OFFSETOF_POLL_COUNT 4) + 1) % 2 ^ 32 ∧
      out.poll_tag = hexEncode (List.replicate 30 5) :=
  C2_poll_rewrite (fun _ => List.replicate 32 0) pollCtx 5 7 (List.replicate 30 5) 3 []
    [Char.ofNat 65] rfl (by decide) (by decide) (by decide) (by decide)
    (fun _ => by simp)

/-- C5 counterexample: the poll response message cannot carry the message
id 4294967296 = 2 ^ 32 in its `index` field, because the struct declares
`index: u32`; the claim that `index` is an unsigned 64-bit integer fails. -/
theorem C5_index_not_u64_counterexample :
    ¬ ∃ m : PollOutputMessage, (m.index : Nat) = 4294967296 := by
  rintro ⟨m, hm⟩
  have := m.index.isLt
  omega

/-- C5 (amended): every non-empty poll response message carries the fields
contents, created, index, poll_count and poll_tag, where `index` is an
unsigned 32-bit integer (the slot index), `poll_count` is a u32, and
`poll_tag` is a 60-character lowercase hex string. -/
theorem C5_poll_output_fields (blake3 : List Nat → List Nat) (ctx : ServerCtx)
    (now vt : Int) (randTag : List Nat) (index : Nat) (rest : List (Nat × Int))
    (cs : List Char)
    (hsusp : ctx.suspendPoll = false)
    (hpop : removeEarliestUpTo ctx.available now = (some index, rest))
    (hdec : utf8Decode (readAt (ctx.device index) SLOT_OFFSETOF_CONTENTS
        (beVal (readAt (ctx.device index) SLOT_OFFSETOF_LEN 2))) = some cs)
    (htag : randTag.length = 30) :
    ∃ (out : PollOutputMessage) (ctx2 : ServerCtx) (ev : List (Nat × List Nat)),
      endpoint_poll blake3 ctx now vt randTag = some (.ok ⟨some out⟩, ctx2, ev) ∧
      out.contents = String.mk cs ∧
      out.created = i64ofBe (readAt (ctx.device index) SLOT_OFFSETOF_CREATED_TS 8) ∧
      (out.index : Nat) < 2 ^ 32 ∧
      (out.poll_count : Nat) < 2 ^ 32 ∧
      out.poll_tag.length = 60 ∧
      (∀ c ∈ out.poll_tag.data, c ∈ hexAlphabet) := by
  refine ⟨_, _, _,
    endpoint_poll_success_eq blake3 ctx now vt randTag index rest cs hsusp hpop hdec,
    rfl, rfl, ?_, ?_, ?_, ?_⟩
  · exact (⟨index % 2 ^ 32, Nat.mod_lt _ (by norm_num)⟩ : Fin (2 ^ 32)).isLt
  · exact Nat.mod_lt _ (by norm_num)
  · rw [show (hexEncode randTag).length = 2 * randTag.length from hexEncode_length randTag,
      htag]
  · exact hexEncode_mem_alphabet randTag

/-- Witness for C5 (amended) at a concrete input. -/
theorem C5_poll_output_fields_witness :
    ∃ (out : PollOutputMessage) (ctx2 : ServerCtx) (ev : List (Nat × List Nat)),
      endpoint_poll (fun _ => List.replicate 32 0) pollCtx 5 7 (List.replicate 30 5) =
        some (.ok ⟨some out⟩, ctx2, ev) ∧
      out.contents = String.mk [Char.ofNat 65] ∧
      out.created = i64ofBe (readAt (pollCtx.device 3) SLOT_OFFSETOF_CREATED_TS 8) ∧
      (out.index : Nat) < 2 ^ 32 ∧
      (out.poll_count : Nat) < 2 ^ 32 ∧
      out.poll_tag.length = 60 ∧
      (∀ c ∈ out.poll_tag.data, c ∈ hexAlphabet) :=
  C5_poll_output_fields (fun _ => List.replicate 32 0) pollCtx 5 7 (List.replicate 30 5)
    3 [] [Char.ofNat 65] rfl (by decide) (by decide) (by decide)

/-- C10: the `String::from_utf8(..).unwrap()` in poll cannot panic on
contents written by push: decoding the UTF-8 bytes of any pushed string
succeeds with its characters, and under the precondition that every slot
reachable by the pop holds the UTF-8 bytes of some pushed string, the
embedded endpoint never reaches its panic branch (never returns `none`). -/
theorem C10_poll_contents_utf8 (blake3 : List Nat → List Nat) (ctx : ServerCtx)
    (now vt : Int) (randTag : List Nat)
    (hpush : ∀ idx rest, removeEarliestUpTo ctx.available now = (some idx, rest) →
      ∃ s : String, readAt (ctx.device idx) SLOT_OFFSETOF_CONTENTS
          (beVal (readAt (ctx.device idx) SLOT_OFFSETOF_LEN 2)) = utf8Encode s) :
    (∀ s : String, utf8Decode (utf8Encode s) = some s.data) ∧
    endpoint_poll blake3 ctx now vt randTag ≠ none := by
  refine ⟨utf8Decode_utf8Encode, ?_⟩
  by_cases hs : ctx.suspendPoll
  · simp [endpoint_poll, hs]
  · rcases hpop : removeEarliestUpTo ctx.available now with ⟨oidx, rest⟩
    cases oidx with
    | none => simp [endpoint_poll, hs, hpop]
    | some idx =>
      obtain ⟨s, hsenc⟩ := hpush idx rest hpop
      have hdec : utf8Decode (readAt (ctx.device idx) SLOT_OFFSETOF_CONTENTS
          (beVal (readAt (ctx.device idx) SLOT_OFFSETOF_LEN 2))) = some s.data := by
        rw [hsenc]
        exact utf8Decode_utf8Encode s
      rw [endpoint_poll_success_eq blake3 ctx now vt randTag idx rest s.data
        (by simpa using hs) hpop hdec]
      simp

/-- Witness for C10 at a concrete input whose slot holds the push-encoded
contents of the string A. -/
theorem C10_poll_contents_utf8_witness :
    (∀ s : String, utf8Decode (utf8Encode s) = some s.data) ∧
    endpoint_poll (fun _ => List.replicate 32 0) pollCtx 5 7 (List.replicate 30 5) ≠
      none := by
  have hc : readAt pollSlot SLOT_OFFSETOF_CONTENTS
      (beVal (readAt pollSlot SLOT_OFFSETOF_LEN 2)) = utf8Encode "A" := by decide
  exact C10_poll_contents_utf8 (fun _ => List.replicate 32 0) pollCtx 5 7
    (List.replicate 30 5) (fun idx rest _ => ⟨"A", hc⟩)

end Queued
